import Mathlib

/-!
Shallow embedding of the TaskTracker application (src/main.py) and proofs
about its task-ranking, extraction-parsing, storage and removal logic.

Conventions used throughout:
  * Python dicts holding the six task fields are embedded as the `Task`
    structure; field names match the dict keys.
  * The language-model subprocess (`ollama_generate`) is abstracted as an
    oracle `model : String → String` mapping the prompt to the (already
    whitespace-stripped) stdout text.
  * File I/O is embedded as explicit state: the store file is an
    `Option String` (`none` = file absent), `save_tasks` returns the new
    file content and `load_tasks` reads from such a state.
  * Machine-level exceptions that the code lets escape (list.pop out of
    range) are embedded as `Option`; exceptions the code swallows with a
    bare `except` are embedded by returning the fallback value directly.
-/

namespace TaskTracker

/-- Embedding of the task record created in `add_tasks` (src/main.py lines
119-129): a dict with keys id, text, completed, timestamp, priority_score,
source.  `timestamp` and `priority_score` are Python ints, embedded as `Int`. -/
structure Task where
  id : String
  text : String
  completed : Bool
  timestamp : Int
  priority_score : Int
  source : String
deriving DecidableEq, Repr

/-! ### Bracket extraction: `re.search(r'\[.*?\]', response, re.DOTALL)`

Both `extract_tasks_from_text` (line 106) and `rank_tasks` (line 169) locate
the first bracketed substring of the model response with this regex.  Its
semantics: the match starts at the leftmost `[` that is followed (anywhere
later, `.` matching newlines under DOTALL) by a `]`, and extends to the
first such `]`; if the leftmost `[` has no `]` after it then no later `[`
has one either, so the search fails. -/

/-- Scan for the first `]`, returning everything up to and including it. -/
def scanToClose : List Char → Option (List Char)
  | [] => none
  | c :: rest =>
    if c = ']' then some [']']
    else (scanToClose rest).map (fun sub => c :: sub)

/-- Embedding of `re.search(r'\[.*?\]', s, re.DOTALL)`: the matched
substring (from the first `[` to the first `]` after it), or `none`. -/
def firstBracketMatch : List Char → Option (List Char)
  | [] => none
  | c :: rest =>
    if c = '[' then (scanToClose rest).map (fun sub => '[' :: sub)
    else firstBracketMatch rest

/-! ### JSON parsing: `json.loads` restricted to flat arrays of strings

The source hands the bracket match to `json.loads` (lines 111 and 174) and
uses the result as a list of strings: extracted task texts in
`extract_tasks_from_text`, ranked id strings in `rank_tasks` (the spec,
§4.3, reads the response as "a list of id strings").  The embedding below
parses exactly the JSON arrays whose elements are JSON strings — with the
full JSON lexical rules for whitespace, string escapes (including `\uXXXX`
and surrogate pairs) and end-of-input — and fails on any other JSON
document.  `json.loads` itself also accepts arrays holding non-string
values; such elements can never compare equal to a task id (a Python str),
so no claim below quantifies over them. -/

/-- JSON whitespace characters (RFC 8259: space, tab, line feed, carriage
return), as skipped by Python's `json` scanner. -/
def isJsonWs (c : Char) : Bool :=
  c = ' ' || c = '\t' || c = '\n' || c = '\r'

/-- Drop leading JSON whitespace. -/
def skipWs : List Char → List Char
  | [] => []
  | c :: rest => if isJsonWs c then skipWs rest else c :: rest

/-- Value of one hexadecimal digit, as accepted in a JSON `\uXXXX` escape. -/
def hexVal (c : Char) : Option Nat :=
  if '0' ≤ c ∧ c ≤ '9' then some (c.toNat - 48)
  else if 'a' ≤ c ∧ c ≤ 'f' then some (c.toNat - 87)
  else if 'A' ≤ c ∧ c ≤ 'F' then some (c.toNat - 55)
  else none

/-- Parse exactly four hex digits of a `\uXXXX` escape. -/
def parseHex4 : List Char → Option (Nat × List Char)
  | a :: b :: c :: d :: rest => do
    let va ← hexVal a
    let vb ← hexVal b
    let vc ← hexVal c
    let vd ← hexVal d
    pure (va * 4096 + vb * 256 + vc * 16 + vd, rest)
  | _ => none

/-- Parse the body of a JSON string (the opening quote already consumed),
following Python's `py_scanstring` in strict mode: literal control
characters are rejected, the escapes `\" \\ \/ \b \f \n \r \t \uXXXX` are
recognised, and a `\uXXXX` high surrogate followed by a low surrogate
escape is combined into one scalar.  A lone surrogate escape is rejected
(Python would produce a lone-surrogate str, which has no embedding as Lean
characters and cannot arise from content this program writes).  The fuel
argument only bounds recursion depth; every recursive call consumes at
least one input character, so `input length + 1` fuel is always enough. -/
def parseJStrBody : Nat → List Char → Option (List Char × List Char)
  | 0, _ => none
  | _ + 1, [] => none
  | fuel + 1, c :: rest =>
    if c = '"' then some ([], rest)
    else if c = '\\' then
      match rest with
      | [] => none
      | e :: rest' =>
        if e = 'u' then
          match parseHex4 rest' with
          | none => none
          | some (n, rest2) =>
            if 0xd800 ≤ n ∧ n ≤ 0xdbff then
              match rest2 with
              | '\\' :: 'u' :: rest3 =>
                match parseHex4 rest3 with
                | none => none
                | some (n2, rest4) =>
                  if 0xdc00 ≤ n2 ∧ n2 ≤ 0xdfff then
                    match parseJStrBody fuel rest4 with
                    | none => none
                    | some (s, rem) =>
                      some (Char.ofNat (0x10000 + (n - 0xd800) * 0x400 + (n2 - 0xdc00)) :: s, rem)
                  else none
              | _ => none
            else if 0xdc00 ≤ n ∧ n ≤ 0xdfff then none
            else
              match parseJStrBody fuel rest2 with
              | none => none
              | some (s, rem) => some (Char.ofNat n :: s, rem)
        else
          match
            (if e = '"' then some '"'
             else if e = '\\' then some '\\'
             else if e = '/' then some '/'
             else if e = 'b' then some (Char.ofNat 8)
             else if e = 'f' then some (Char.ofNat 12)
             else if e = 'n' then some '\n'
             else if e = 'r' then some '\r'
             else if e = 't' then some '\t'
             else none) with
          | none => none
          | some ec =>
            match parseJStrBody fuel rest' with
            | none => none
            | some (s, rem) => some (ec :: s, rem)
    else if c.toNat < 0x20 then none
    else
      match parseJStrBody fuel rest with
      | none => none
      | some (s, rem) => some (c :: s, rem)

/-- Parse one JSON string token: leading whitespace, a `"`, then the body. -/
def parseJStr (l : List Char) : Option (String × List Char) :=
  match skipWs l with
  | '"' :: rest =>
    match parseJStrBody (rest.length + 1) rest with
    | none => none
    | some (s, rem) => some (String.mk s, rem)
  | _ => none

/-- Parse the comma-separated string elements of a JSON array, starting
after the opening `[` (first element expected next), consuming the closing
`]`.  Fuel bounds the number of elements; each element consumes at least
one character, so `input length + 1` is always enough. -/
def parseStrElems : Nat → List Char → Option (List String × List Char)
  | 0, _ => none
  | fuel + 1, l => do
    let (s, rest) ← parseJStr l
    match skipWs rest with
    | ',' :: rest' => do
      let (ss, rem) ← parseStrElems fuel rest'
      pure (s :: ss, rem)
    | ']' :: rest' => pure ([s], rest')
    | _ => none

/-- Embedding of `json.loads` on the documents this program consumes: a
JSON array of strings, with arbitrary surrounding whitespace, parsed to the
Lean list of its element strings; anything else fails (`none`). -/
def parseJsonStringArray (l : List Char) : Option (List String) :=
  match skipWs l with
  | '[' :: rest =>
    match skipWs rest with
    | ']' :: rest' => if (skipWs rest').isEmpty then some [] else none
    | rest' =>
      match parseStrElems (rest'.length + 1) rest' with
      | none => none
      | some (ss, rem) => if (skipWs rem).isEmpty then some ss else none
  | _ => none

/-! ### Extraction Parser (`extract_tasks_from_text`, src/main.py lines 92-113) -/

/-- Prompt built by `extract_tasks_from_text` (lines 93-103). -/
def build_extract_prompt (text : String) : String :=
  "\nExtract tasks from the text below.\n\nReturn ONLY a valid JSON array of strings.\nNo explanations.\nNo markdown.\nNo extra text.\n\nText:\n" ++ text ++ "\n"

/-- Parse step shared by extraction and ranking (lines 106-113 and
169-176): first bracketed substring, then `json.loads`; `none` when either
step fails. -/
def bracket_json_parse (response : String) : Option (List String) :=
  match firstBracketMatch response.data with
  | none => none
  | some sub => parseJsonStringArray sub

/-- Response handling of `extract_tasks_from_text` (lines 104-113): on a
missing bracket match or a parse failure, return the empty list, otherwise
the parsed array. -/
def extract_from_response (response : String) : List String :=
  (bracket_json_parse response).getD []

/-- Embedding of `extract_tasks_from_text` (lines 92-113): prompt the model
with the fixed instruction around the input text, then parse its response. -/
def extract_tasks_from_text (model : String → String) (text : String) : List String :=
  extract_from_response (model (build_extract_prompt text))

/-! ### Ranking Engine (`rank_tasks`, src/main.py lines 134-191) -/

/-- The line `f"{i+1}. ID: {t['id']} | Task: {t['text']}"` of the ranking
prompt (line 142), for the 0-based position `i`. -/
def rank_prompt_line (i : Nat) (t : Task) : String :=
  toString (i + 1) ++ ". ID: " ++ t.id ++ " | Task: " ++ t.text

/-- The `"\n".join(...)` of the prompt lines over the incomplete tasks
(lines 141-144). -/
def rank_prompt_body (incomplete : List Task) : String :=
  String.intercalate "\n" (incomplete.enum.map (fun p => rank_prompt_line p.1 p.2))

/-- Prompt built by `rank_tasks` (lines 146-164). -/
def build_rank_prompt (incomplete : List Task) : String :=
  "\n    You are a productivity AI.\n\n    Rank the following tasks from MOST important to LEAST important.\n\n    Consider:\n    - Urgency\n    - Practical importance\n    - Likely deadlines\n    - Real-world impact\n\n    Return ONLY a JSON array of task IDs in ranked order.\n    No explanations.\n    No markdown.\n    No extra text.\n\n    Tasks:\n    " ++ rank_prompt_body incomplete ++ "\n    "

/-- One insertion `d[task_id] = L - i` into the dict being built by the
comprehension on lines 179-182, seen as an update of the lookup function. -/
def scoreUpd (L : Int) (m : String → Option Int) (p : Nat × String) : String → Option Int :=
  fun k => if k = p.2 then some (L - (p.1 : Int)) else m k

/-- Embedding of the dict comprehension (lines 179-182)
`id_to_score = {task_id: len(ranked_ids) - i for i, task_id in enumerate(ranked_ids)}`
as the lookup function of the finished dict: entries are inserted left to
right, so a repeated id ends up with the value of its rightmost
occurrence. -/
def id_to_score (ranked_ids : List String) : String → Option Int :=
  ranked_ids.enum.foldl (scoreUpd (ranked_ids.length : Int)) (fun _ => none)

/-- Embedding of the score-assignment loop (lines 184-188): every stored
task gets `id_to_score[id]` if present, else 0. -/
def assign_scores (tasks : List Task) (ranked_ids : List String) : List Task :=
  tasks.map fun t =>
    match id_to_score ranked_ids t.id with
    | some s => { t with priority_score := s }
    | none => { t with priority_score := 0 }

/-- Comparison underlying `tasks.sort(key=lambda x: x["priority_score"], reverse=True)`
(line 191): `a` may stay before `b` iff `b`'s score does not exceed `a`'s. -/
def taskGe (a b : Task) : Bool :=
  b.priority_score ≤ a.priority_score

/-- Embedding of lines 178-191 of `rank_tasks`, from a successfully parsed
ranked-id list: assign scores, then sort the whole list descending by
score.  CPython's `list.sort` is stable and documents that `reverse=True`
preserves stability, which is exactly `List.mergeSort` with `taskGe`. -/
def rank_with_ids (tasks : List Task) (ranked_ids : List String) : List Task :=
  (assign_scores tasks ranked_ids).mergeSort taskGe

/-- Embedding of `rank_tasks` (lines 134-191).  The first component is the
task list after the call (the Python function mutates `tasks` in place);
the second is the list of prompts sent to the model during the call, so
that "no prompt sent" is expressible as `= []`. -/
def rank_tasks (model : String → String) (tasks : List Task) : List Task × List String :=
  let incomplete := tasks.filter (fun t => !t.completed)
  if incomplete.isEmpty then (tasks, [])
  else
    let prompt := build_rank_prompt incomplete
    match bracket_json_parse (model prompt) with
    | none => (tasks, [prompt])
    | some ranked_ids => (rank_with_ids tasks ranked_ids, [prompt])

/-! ### Removal (`TaskTracker.complete_selected`, src/main.py lines 306-311) -/

/-- Embedding of Python's `list.pop(i)` for `i ≥ 0`: the list without the
element at index `i` together with that element, or `none` for the
`IndexError` raised when `i` is out of range. -/
def list_pop {α : Type} (l : List α) (i : Nat) : Option (List α × α) :=
  if h : i < l.length then some (l.eraseIdx i, l.get ⟨i, h⟩) else none

/-- Embedding of `complete_selected` (lines 306-311) acting on the stored
list: `currentRow` is the selected visual row (`-1` when nothing is
selected, in which case nothing happens); otherwise `self.tasks.pop(selected)`
removes the task at that stored position.  The `none` result embeds the
`IndexError` escape path, which the enclosing GUI cannot reach because the
widget row count equals the stored list length. -/
def complete_selected (tasks : List Task) (currentRow : Int) : Option (List Task) :=
  if 0 ≤ currentRow then
    (list_pop tasks currentRow.toNat).map Prod.fst
  else some tasks

/-! ### Task Store (`load_tasks` / `save_tasks`, src/main.py lines 44-56)

`save_tasks` writes `json.dump(tasks, f, indent=2)`; `load_tasks` reads the
file back with `json.load` and returns `[]` when the file is absent or
anything goes wrong.  The serializer below reproduces Python's output for a
list of task records byte for byte (`ensure_ascii=True` escaping, indent 2,
`", "` key separator, insertion-ordered keys).  The reader accepts exactly
the JSON documents of that shape — a (possibly empty) array of six-field
task objects in insertion order, with arbitrary inter-token whitespace and
full JSON string/integer token syntax — and fails on everything else.
`json.load` itself would succeed on further JSON documents (other value
shapes, reordered keys, floats); those are valid JSON, so they fall outside
every "invalid content" claim below, and they are never produced by
`save_tasks`. -/

/-- Lowercase hexadecimal digit, as produced by Python's `'\\u{0:04x}'.format`. -/
def toHexDigit (n : Nat) : Char :=
  if n < 10 then Char.ofNat (48 + n) else Char.ofNat (87 + n)

/-- Four lowercase hex digits of `n < 0x10000`. -/
def hex4 (n : Nat) : List Char :=
  [toHexDigit (n / 4096 % 16), toHexDigit (n / 256 % 16), toHexDigit (n / 16 % 16), toHexDigit (n % 16)]

/-- Escape one character the way `json.encoder.py_encode_basestring_ascii`
does (`ensure_ascii=True`, the default used by `save_tasks`): `"` and `\`
get a backslash, the five control shorthands `\b \t \n \f \r` are used,
every other character outside printable ASCII `0x20..0x7e` becomes
`\uXXXX` (a surrogate pair above `0xFFFF`), and printable ASCII is kept. -/
def escape_char (c : Char) : List Char :=
  if c = '"' then ['\\', '"']
  else if c = '\\' then ['\\', '\\']
  else if c = '\n' then ['\\', 'n']
  else if c = '\r' then ['\\', 'r']
  else if c = '\t' then ['\\', 't']
  else if c.toNat = 8 then ['\\', 'b']
  else if c.toNat = 12 then ['\\', 'f']
  else if 0x20 ≤ c.toNat ∧ c.toNat ≤ 0x7e then [c]
  else if c.toNat < 0x10000 then '\\' :: 'u' :: hex4 c.toNat
  else
    ('\\' :: 'u' :: hex4 (0xd800 + (c.toNat - 0x10000) / 0x400)) ++
    ('\\' :: 'u' :: hex4 (0xdc00 + (c.toNat - 0x10000) % 0x400))

/-- Escape every character of a string body. -/
def escape_chars : List Char → List Char
  | [] => []
  | c :: rest => escape_char c ++ escape_chars rest

/-- Serialize a JSON string: quote, escaped body, quote. -/
def dump_jstr (s : String) : List Char :=
  '"' :: escape_chars s.data ++ ['"']

/-- Decimal digits of a natural number, most significant first, as in
Python's `repr`. -/
def nat_repr_chars (n : Nat) : List Char :=
  if n = 0 then ['0'] else ((Nat.digits 10 n).reverse).map (fun d => Char.ofNat (48 + d))

/-- Serialize a Python int as `json.dump` does (its `repr`). -/
def dump_int (n : Int) : List Char :=
  if n < 0 then '-' :: nat_repr_chars n.natAbs else nat_repr_chars n.toNat

/-- Serialize a Python bool as `json.dump` does. -/
def dump_bool (b : Bool) : List Char :=
  if b then "true".data else "false".data

/-- The rendering of one task record after its opening `{`: four-space
indent before each key, keys in dict insertion order, `": "` between key
and value, closing `}` under a two-space indent. -/
def dump_obj_tail (t : Task) : List Char :=
  "\n    \"id\": ".data ++ (dump_jstr t.id ++
  (",\n    \"text\": ".data ++ (dump_jstr t.text ++
  (",\n    \"completed\": ".data ++ (dump_bool t.completed ++
  (",\n    \"timestamp\": ".data ++ (dump_int t.timestamp ++
  (",\n    \"priority_score\": ".data ++ (dump_int t.priority_score ++
  (",\n    \"source\": ".data ++ (dump_jstr t.source ++
  "\n  \x7d".data)))))))))))

/-- Serialize one task record exactly as `json.dump(..., indent=2)` renders
one element of the list: two-space indent before the `{`, then the fields. -/
def dump_task_obj (t : Task) : List Char :=
  "  \x7b".data ++ dump_obj_tail t

/-- The `",\n"`-prefixed rendering of every object after the first. -/
def dump_objs_sep : List Task → List Char
  | [] => []
  | t :: rest => ",\n".data ++ (dump_task_obj t ++ dump_objs_sep rest)

/-- Serialize the comma-and-newline separated sequence of task objects. -/
def dump_objs : List Task → List Char
  | [] => []
  | t :: rest => dump_task_obj t ++ dump_objs_sep rest

/-- Embedding of `json.dump(tasks, f, indent=2)` (line 56): the exact file
content Python writes. -/
def dumpTasks (tasks : List Task) : String :=
  match tasks with
  | [] => "[]"
  | _ => String.mk ("[\n".data ++ dump_objs tasks ++ "\n]".data)

/-- Skip whitespace and consume the expected single character. -/
def expectChar (c : Char) (l : List Char) : Option (List Char) :=
  match skipWs l with
  | c' :: rest => if c' = c then some rest else none
  | [] => none

/-- Parse one object key: a JSON string token that must equal `key`,
followed by (whitespace and) a colon. -/
def parseKey (key : String) (l : List Char) : Option (List Char) := do
  let (s, rest) ← parseJStr l
  if s = key then expectChar ':' rest else none

/-- Parse the digit run of an integer token, folding into an accumulator;
stops at the first non-digit. -/
def parseDigitsAcc (acc : Nat) : List Char → Nat × List Char
  | [] => (acc, [])
  | c :: rest =>
    if '0' ≤ c ∧ c ≤ '9' then parseDigitsAcc (acc * 10 + (c.toNat - 48)) rest
    else (acc, c :: rest)

/-- Parse an unsigned JSON integer: `0`, or a nonzero digit followed by
digits (JSON forbids leading zeros, as does Python's number regex). -/
def parseUNum : List Char → Option (Nat × List Char)
  | [] => none
  | c :: rest =>
    if c = '0' then some (0, rest)
    else if '1' ≤ c ∧ c ≤ '9' then some (parseDigitsAcc (c.toNat - 48) rest)
    else none

/-- Parse a JSON integer token with optional leading minus.  `json.load`
would also accept fraction and exponent parts, producing floats; this
program only ever stores ints, and a float-bearing file is outside every
claim below. -/
def parseJInt (l : List Char) : Option (Int × List Char) :=
  match skipWs l with
  | [] => none
  | c :: rest =>
    if c = '-' then (parseUNum rest).map (fun p => (-(p.1 : Int), p.2))
    else (parseUNum (c :: rest)).map (fun p => ((p.1 : Int), p.2))

/-- Parse a JSON boolean literal. -/
def parseJBool (l : List Char) : Option (Bool × List Char) :=
  match skipWs l with
  | 't' :: 'r' :: 'u' :: 'e' :: rest => some (true, rest)
  | 'f' :: 'a' :: 'l' :: 's' :: 'e' :: rest => some (false, rest)
  | _ => none

/-- Parse one field of a task object: the comma before it, its key and its
value. -/
def parseFieldAfterComma {α : Type} (key : String)
    (pv : List Char → Option (α × List Char)) (l : List Char) : Option (α × List Char) :=
  match expectChar ',' l with
  | none => none
  | some l1 =>
    match parseKey key l1 with
    | none => none
    | some l2 => pv l2

/-- Parse one task object: `{`, the six known fields in insertion order,
`}`. -/
def parseTaskObj (l : List Char) : Option (Task × List Char) :=
  match expectChar '{' l with
  | none => none
  | some l0 =>
    match parseKey "id" l0 with
    | none => none
    | some l1 =>
      match parseJStr l1 with
      | none => none
      | some p1 =>
        match parseFieldAfterComma "text" parseJStr p1.2 with
        | none => none
        | some p2 =>
          match parseFieldAfterComma "completed" parseJBool p2.2 with
          | none => none
          | some p3 =>
            match parseFieldAfterComma "timestamp" parseJInt p3.2 with
            | none => none
            | some p4 =>
              match parseFieldAfterComma "priority_score" parseJInt p4.2 with
              | none => none
              | some p5 =>
                match parseFieldAfterComma "source" parseJStr p5.2 with
                | none => none
                | some p6 =>
                  match expectChar '}' p6.2 with
                  | none => none
                  | some l7 =>
                    some (⟨p1.1, p2.1, p3.1, p4.1, p5.1, p6.1⟩, l7)

/-- Parse the comma-separated task objects of the stored array, consuming
the closing `]`.  Fuel bounds the number of objects; each object consumes
at least one character, so `input length + 1` is always enough. -/
def parseTaskObjs : Nat → List Char → Option (List Task × List Char)
  | 0, _ => none
  | fuel + 1, l => do
    let (t, rest) ← parseTaskObj l
    match skipWs rest with
    | ',' :: rest' => do
      let (ts, rem) ← parseTaskObjs fuel rest'
      pure (t :: ts, rem)
    | ']' :: rest' => pure ([t], rest')
    | _ => none

/-- Embedding of `json.load` on the store file (see the section comment for
the accepted shape): `none` embeds the `json.JSONDecodeError` path. -/
def parseTasksFile (content : String) : Option (List Task) :=
  match expectChar '[' content.data with
  | none => none
  | some rest =>
    match skipWs rest with
    | [] => none
    | c :: rest2 =>
      if c = ']' then (if (skipWs rest2).isEmpty then some [] else none)
      else
        match parseTaskObjs ((c :: rest2).length + 1) (c :: rest2) with
        | none => none
        | some (ts, rem) => if (skipWs rem).isEmpty then some ts else none

/-- Embedding of `load_tasks` (lines 44-51): the argument is the store-file
state (`none` = no file).  A missing file returns `[]` (line 51); a present
file is parsed, and the bare `except` turns any parse error into `[]`
(lines 49-50).  The function is total: no exception escapes. -/
def load_tasks (file : Option String) : List Task :=
  match file with
  | none => []
  | some content => (parseTasksFile content).getD []

/-- Embedding of `save_tasks` (lines 54-56): the store-file state after the
call is the file freshly written with `json.dump(tasks, f, indent=2)`. -/
def save_tasks (tasks : List Task) : Option String :=
  some (dumpTasks tasks)

/-! ### Helper definitions used by the theorems -/

/-- The five task fields other than `priority_score`; the ranking pass must
leave these untouched. -/
def stripScore (t : Task) : String × String × Bool × Int × String :=
  (t.id, t.text, t.completed, t.timestamp, t.source)

/-- Concrete incomplete sample task used in witnesses. -/
def sampleA : Task := ⟨"A", "write report", false, 10, 0, "manual"⟩

/-- Second concrete incomplete sample task used in witnesses. -/
def sampleB : Task := ⟨"B", "buy milk", false, 11, 0, "ai"⟩

/-- Concrete completed sample task used in witnesses. -/
def sampleDone : Task := ⟨"D", "already done", true, 12, 3, "manual"⟩

/-! ### Lemmas about the score dictionary -/

/-- Folding insertions over ids that are all different from `tid` leaves
the lookup of `tid` unchanged. -/
theorem foldl_scoreUpd_not_mem (L : Int) (l : List String) (i0 : Nat)
    (m : String → Option Int) (tid : String) (h : tid ∉ l) :
    ((List.enumFrom i0 l).foldl (scoreUpd L) m) tid = m tid := by
  induction l generalizing i0 m with
  | nil => rfl
  | cons x xs ih =>
    rw [List.enumFrom_cons, List.foldl_cons,
      ih (i0 + 1) _ (fun hm => h (List.mem_cons_of_mem _ hm))]
    have hne : tid ≠ x := fun he => h (he ▸ List.mem_cons_self x xs)
    simp [scoreUpd, hne]

/-- The finished dict maps `tid` to `L` minus the position of the last
occurrence of `tid` (insertions further left are overwritten). -/
theorem foldl_scoreUpd_last (L : Int) (pre post : List String) (tid : String)
    (i0 : Nat) (m : String → Option Int) (h : tid ∉ post) :
    ((List.enumFrom i0 (pre ++ tid :: post)).foldl (scoreUpd L) m) tid
      = some (L - ((i0 + pre.length : Nat) : Int)) := by
  induction pre generalizing i0 m with
  | nil =>
    rw [List.nil_append, List.enumFrom_cons, List.foldl_cons,
      foldl_scoreUpd_not_mem L post (i0 + 1) _ tid h]
    simp [scoreUpd]
  | cons x xs ih =>
    rw [List.cons_append, List.enumFrom_cons, List.foldl_cons, ih (i0 + 1)]
    have he : i0 + 1 + xs.length = i0 + (x :: xs).length := by
      simp only [List.length_cons]
      omega
    rw [he]

/-- An id absent from the ranked list is absent from the dict. -/
theorem id_to_score_eq_none (ranked : List String) (tid : String) (h : tid ∉ ranked) :
    id_to_score ranked tid = none := by
  unfold id_to_score
  rw [List.enum_eq_enumFrom]
  exact foldl_scoreUpd_not_mem _ _ _ _ _ h

/-- The dict value of `tid` is determined by the last occurrence of `tid`
in the ranked list: length minus its position. -/
theorem id_to_score_last (pre post : List String) (tid : String) (h : tid ∉ post) :
    id_to_score (pre ++ tid :: post) tid
      = some ((((pre ++ tid :: post).length : Nat) : Int) - (pre.length : Int)) := by
  unfold id_to_score
  rw [List.enum_eq_enumFrom, foldl_scoreUpd_last _ _ _ _ _ _ h]
  norm_num

/-! ### Lemmas about the ranking pass -/

/-- Every task in the ranked output comes from a stored task, rescored
according to the dict. -/
theorem mem_rank_with_ids {tasks : List Task} {ranked : List String} {u : Task}
    (hu : u ∈ rank_with_ids tasks ranked) :
    ∃ t ∈ tasks,
      u = (match id_to_score ranked t.id with
           | some s => { t with priority_score := s }
           | none => { t with priority_score := 0 }) := by
  have hperm := List.mergeSort_perm (assign_scores tasks ranked) taskGe
  have hmem : u ∈ assign_scores tasks ranked := hperm.mem_iff.mp hu
  obtain ⟨t, ht, hut⟩ := List.mem_map.mp hmem
  exact ⟨t, ht, hut.symm⟩

/-- The id of a rescored task is the id of the original task, and its score
is the dict value of that id (0 when absent). -/
theorem score_of_mem_rank {tasks : List Task} {ranked : List String} {u : Task}
    (hu : u ∈ rank_with_ids tasks ranked) :
    u.priority_score = (id_to_score ranked u.id).getD 0 := by
  obtain ⟨t, _, hut⟩ := mem_rank_with_ids hu
  cases hscore : id_to_score ranked t.id with
  | none =>
    rw [hscore] at hut
    subst hut
    simp [hscore]
  | some s =>
    rw [hscore] at hut
    subst hut
    simp [hscore]

/-- Positions `i < j` of a list yield a two-element sublist in order. -/
theorem pair_get_sublist {α : Type} (l : List α) (i j : Nat) (hi : i < l.length)
    (hj : j < l.length) (hij : i < j) :
    [l.get ⟨i, hi⟩, l.get ⟨j, hj⟩].Sublist l := by
  obtain ⟨k, rfl⟩ : ∃ k, j = i + 1 + k := ⟨j - (i + 1), by omega⟩
  have hmem : l.get ⟨i + 1 + k, hj⟩ ∈ l.drop (i + 1) := by
    rw [List.get_drop l hj]
    exact List.get_mem _ _ _
  have h1 : [l.get ⟨i + 1 + k, hj⟩].Sublist (l.drop (i + 1)) :=
    List.singleton_sublist.mpr hmem
  have h2 : [l.get ⟨i, hi⟩, l.get ⟨i + 1 + k, hj⟩].Sublist
      (l.get ⟨i, hi⟩ :: l.drop (i + 1)) := h1.cons₂ _
  have h3 : l.get ⟨i, hi⟩ :: l.drop (i + 1) = l.drop i := List.get_cons_drop l ⟨i, hi⟩
  exact (h3 ▸ h2).trans (List.drop_sublist i l)

/-- The comparison used by the sort is transitive. -/
theorem taskGe_trans : ∀ a b c : Task, taskGe a b → taskGe b c → taskGe a c := by
  intro a b c hab hbc
  simp only [taskGe, decide_eq_true_eq] at *
  omega

/-- The comparison used by the sort is total. -/
theorem taskGe_total : ∀ a b : Task, taskGe a b || taskGe b a := by
  intro a b
  simp only [taskGe, Bool.or_eq_true, decide_eq_true_eq]
  omega

/-- C10 (confirmed): when the parsed ranked-id list contains an id at more
than one position, the score assigned to the task with that id comes from
the id's last occurrence: writing the list as `pre ++ tid :: post` with
`tid` occurring in `pre` and not in `post` (so the last occurrence sits at
0-based position `pre.length`), the task with id `tid` ends up with
priority score `L - pre.length`, not the score of the first occurrence. -/
theorem C10_duplicate_id_last_occurrence_wins
    (tasks : List Task) (pre post : List String) (tid : String)
    (hdup : tid ∈ pre) (hlast : tid ∉ post) :
    ∀ u ∈ rank_with_ids tasks (pre ++ tid :: post), u.id = tid →
      u.priority_score
        = (((pre ++ tid :: post).length : Nat) : Int) - (pre.length : Int) := by
  intro u hu hid
  rw [score_of_mem_rank hu, hid, id_to_score_last _ _ _ hlast]
  rfl

/-- Witness for C10: ranked list `["A", "A"]` (so `pre = ["A"]`,
`post = []`), one stored task with id `"A"`; its score is `2 - 1 = 1`,
the last occurrence's score. -/
theorem C10_duplicate_id_last_occurrence_wins_witness :
    ({ sampleA with priority_score := 1 } : Task).priority_score
      = (((["A"] ++ "A" :: []) : List String).length : Int)
          - ((["A"] : List String).length : Int) := by
  have heq : rank_with_ids [sampleA] (["A"] ++ "A" :: [])
      = [{ sampleA with priority_score := 1 }] := by
    rw [rank_with_ids,
      show assign_scores [sampleA] (["A"] ++ "A" :: [])
        = [{ sampleA with priority_score := 1 }] from rfl,
      List.mergeSort_singleton]
  exact C10_duplicate_id_last_occurrence_wins [sampleA] ["A"] [] "A"
    (by decide) (by decide) { sampleA with priority_score := 1 }
    (heq ▸ List.mem_singleton.mpr rfl) rfl

/-- C1 (as frozen) is refuted by a duplicated id: for the parsed list
`["A", "A"]` of length `L = 2`, the id `"A"` sits at 0-based position 0, so
the claim demands score `L - 0 = 2`, but the ranking pass assigns the task
with id `"A"` the score 1 (the dict comprehension keeps the last
occurrence). -/
theorem C1_counterexample :
    (["A", "A"] : List String).get ⟨0, by norm_num⟩ = "A" ∧
    ((["A", "A"] : List String).length : Int) - ((0 : Nat) : Int) = 2 ∧
    (rank_with_ids [sampleA] ["A", "A"]).map Task.priority_score = [1] := by
  refine ⟨rfl, by norm_num, ?_⟩
  rw [rank_with_ids,
    show assign_scores [sampleA] ["A", "A"]
      = [{ sampleA with priority_score := 1 }] from rfl,
    List.mergeSort_singleton]
  rfl

/-- C1 (amended: the ranked-id list must contain no duplicate ids — the
minimal strengthening forced by `C1_counterexample`; duplicates follow the
last-occurrence rule of C10): for a parsed ranked-id list of length `L`
without duplicates, every task of the ranking pass's output whose id sits
at 0-based position `i` of the list has priority score `L - i`, and every
task whose id does not occur in the list has priority score 0. -/
theorem C1_rank_score_assignment (tasks : List Task) (ranked : List String)
    (hnd : ranked.Nodup) :
    ∀ u ∈ rank_with_ids tasks ranked,
      (∀ i (hi : i < ranked.length), ranked.get ⟨i, hi⟩ = u.id →
          u.priority_score = (ranked.length : Int) - (i : Int)) ∧
      (u.id ∉ ranked → u.priority_score = 0) := by
  intro u hu
  constructor
  · intro i hi hgi
    have hdecomp : ranked = ranked.take i ++ u.id :: ranked.drop (i + 1) := by
      conv_lhs => rw [← List.take_append_drop i ranked]
      congr 1
      rw [← List.get_cons_drop ranked ⟨i, hi⟩, hgi]
    have hnd' : (ranked.take i ++ u.id :: ranked.drop (i + 1)).Nodup := hdecomp ▸ hnd
    have hnot : u.id ∉ ranked.drop (i + 1) := by
      have hcons : (u.id :: ranked.drop (i + 1)).Nodup := (List.nodup_append.mp hnd').2.1
      exact (List.nodup_cons.mp hcons).1
    have hscore := id_to_score_last (ranked.take i) (ranked.drop (i + 1)) u.id hnot
    rw [← hdecomp] at hscore
    have hlen : (ranked.take i).length = i := by
      rw [List.length_take]
      omega
    rw [score_of_mem_rank hu, hscore, hlen]
    rfl
  · intro habs
    rw [score_of_mem_rank hu, id_to_score_eq_none _ _ habs]
    rfl

/-- Witness for C1 (amended): the list `["A"]` has no duplicates; the task
with id `"A"` (position 0 of a length-1 list) receives score `1 - 0`. -/
theorem C1_rank_score_assignment_witness :
    ({ sampleA with priority_score := 1 } : Task).priority_score
      = (((["A"] : List String).length : Nat) : Int) - ((0 : Nat) : Int) := by
  have heq : rank_with_ids [sampleA] ["A"]
      = [{ sampleA with priority_score := 1 }] := by
    rw [rank_with_ids,
      show assign_scores [sampleA] ["A"]
        = [{ sampleA with priority_score := 1 }] from rfl,
      List.mergeSort_singleton]
  exact (C1_rank_score_assignment [sampleA] ["A"] (by decide)
    { sampleA with priority_score := 1 }
    (heq ▸ List.mem_singleton.mpr rfl)).1 0 (by norm_num) rfl

/-- C2 (confirmed): after a successful ranking pass the entire stored task
sequence is sorted in descending order of `priority_score`; any two tasks
with equal scores keep their relative order from before the sort (stable
sort, no secondary key); and the concrete instance: two score-0 tasks with
ids `A` and `B` and a model response `["B","A"]` yield scores 2 and 1 and
stored order `[B, A]`. -/
theorem C2_sort_descending_stable :
    (∀ (tasks : List Task) (ranked : List String),
        List.Pairwise (fun a b : Task => b.priority_score ≤ a.priority_score)
          (rank_with_ids tasks ranked)) ∧
    (∀ (tasks : List Task) (ranked : List String) (i j : Nat)
        (hi : i < (assign_scores tasks ranked).length)
        (hj : j < (assign_scores tasks ranked).length),
        i < j →
        ((assign_scores tasks ranked).get ⟨i, hi⟩).priority_score
          = ((assign_scores tasks ranked).get ⟨j, hj⟩).priority_score →
        [(assign_scores tasks ranked).get ⟨i, hi⟩,
          (assign_scores tasks ranked).get ⟨j, hj⟩].Sublist
          (rank_with_ids tasks ranked)) ∧
    (rank_tasks (fun _ => "[\"B\",\"A\"]") [sampleA, sampleB]).1
      = [{ sampleB with priority_score := 2 }, { sampleA with priority_score := 1 }] := by
  refine ⟨?_, ?_, ?_⟩
  · intro tasks ranked
    have h := @List.sorted_mergeSort Task taskGe taskGe_trans taskGe_total
      (assign_scores tasks ranked)
    exact h.imp (by
      intro a b hab
      simpa [taskGe, decide_eq_true_eq] using hab)
  · intro tasks ranked i j hi hj hij hsc
    have hpair : List.Pairwise (fun a b : Task => taskGe a b = true)
        [(assign_scores tasks ranked).get ⟨i, hi⟩,
          (assign_scores tasks ranked).get ⟨j, hj⟩] := by
      refine List.Pairwise.cons ?_ (List.pairwise_singleton _ _)
      intro b hb
      rw [List.mem_singleton] at hb
      subst hb
      simp only [taskGe, decide_eq_true_eq]
      exact le_of_eq hsc.symm
    have hsub := pair_get_sublist (assign_scores tasks ranked) i j hi hj hij
    exact @List.sublist_mergeSort Task taskGe (assign_scores tasks ranked)
      taskGe_trans taskGe_total _ hpair hsub
  · have hstep : (rank_tasks (fun _ => "[\"B\",\"A\"]") [sampleA, sampleB]).1
        = rank_with_ids [sampleA, sampleB] ["B", "A"] := rfl
    rw [hstep, rank_with_ids,
      show assign_scores [sampleA, sampleB] ["B", "A"]
        = [{ sampleA with priority_score := 1 },
           { sampleB with priority_score := 2 }] from rfl]
    simp [List.mergeSort, taskGe, sampleA, sampleB]

/-- Witness for C2: instantiating the stability conjunct at two concrete
score-tied tasks (ranked list `["Z"]` leaves both at score 0). -/
theorem C2_sort_descending_stable_witness :
    [(assign_scores [sampleA, sampleB] ["Z"]).get ⟨0, by decide⟩,
      (assign_scores [sampleA, sampleB] ["Z"]).get ⟨1, by decide⟩].Sublist
      (rank_with_ids [sampleA, sampleB] ["Z"]) :=
  C2_sort_descending_stable.2.1 [sampleA, sampleB] ["Z"] 0 1
    (by decide) (by decide) (by decide) (by decide)

/-- C9 (confirmed): the ranking pass on a successfully parsed ranked-id
list neither adds nor removes tasks and changes no field other than
`priority_score`: the output's id/text/completed/timestamp/source tuples
are a permutation of the input's. -/
theorem C9_rank_preserves_tasks_and_fields (tasks : List Task) (ranked : List String) :
    ((rank_with_ids tasks ranked).map stripScore).Perm (tasks.map stripScore) := by
  have hmap : (assign_scores tasks ranked).map stripScore = tasks.map stripScore := by
    rw [assign_scores, List.map_map]
    have hfun : (stripScore ∘ fun t : Task =>
        match id_to_score ranked t.id with
        | some s => { t with priority_score := s }
        | none => { t with priority_score := 0 }) = stripScore := by
      funext t
      simp only [Function.comp_apply]
      cases id_to_score ranked t.id <;> rfl
    rw [hfun]
  have hperm := (List.mergeSort_perm (assign_scores tasks ranked) taskGe).map stripScore
  rw [hmap] at hperm
  exact hperm

/-- C5 (confirmed): when no incomplete task exists, the ranking pass is a
no-op: the task list is returned unchanged in every field and position, and
no prompt is sent to the model (the prompt log is empty). -/
theorem C5_no_incomplete_noop (model : String → String) (tasks : List Task)
    (h : ∀ t ∈ tasks, t.completed = true) :
    rank_tasks model tasks = (tasks, []) := by
  have hf : tasks.filter (fun t => !t.completed) = [] :=
    List.filter_eq_nil_iff.mpr (by intro t ht; simp [h t ht])
  simp [rank_tasks, hf]

/-- Witness for C5: a single completed task, any model. -/
theorem C5_no_incomplete_noop_witness :
    rank_tasks (fun _ => "[\"D\"]") [sampleDone] = ([sampleDone], []) :=
  C5_no_incomplete_noop (fun _ => "[\"D\"]") [sampleDone] (by decide)

/-- C3 (confirmed): failure of the response parse — no bracketed substring,
or the first bracketed substring fails to parse — is exactly
`bracket_json_parse = none`, and in that case the ranking pass leaves the
task list completely unchanged (same tasks, same fields, same order). -/
theorem C3_parse_failure_noop :
    (∀ r : String, bracket_json_parse r = none ↔
        (firstBracketMatch r.data = none ∨
          ∃ sub, firstBracketMatch r.data = some sub ∧ parseJsonStringArray sub = none)) ∧
    (∀ (model : String → String) (tasks : List Task),
        bracket_json_parse
            (model (build_rank_prompt (tasks.filter (fun t => !t.completed)))) = none →
        (rank_tasks model tasks).1 = tasks) := by
  constructor
  · intro r
    cases h : firstBracketMatch r.data with
    | none => simp [bracket_json_parse, h]
    | some sub => simp [bracket_json_parse, h]
  · intro model tasks h
    by_cases hemp : (tasks.filter (fun t => !t.completed)).isEmpty
    · simp [rank_tasks, hemp]
    · simp [rank_tasks, hemp, h]

/-- Witness for C3: a bracketless response leaves a one-task list
unchanged. -/
theorem C3_parse_failure_noop_witness :
    (rank_tasks (fun _ => "no tasks found") [sampleA]).1 = [sampleA] :=
  C3_parse_failure_noop.2 (fun _ => "no tasks found") [sampleA] rfl

/-- C8 (confirmed): for a stored sequence of length `n` and a visual row
index `0 ≤ k < n`, the remove operation deletes exactly the task at stored
position `k` (the result is the prefix before `k` followed by the suffix
after `k`, so all other tasks keep their relative order) and the stored
length decreases by exactly one. -/
theorem C8_remove_selected_row (tasks : List Task) (k : Nat) (h : k < tasks.length) :
    complete_selected tasks (k : Int) = some (tasks.take k ++ tasks.drop (k + 1)) ∧
      (tasks.take k ++ tasks.drop (k + 1)).length + 1 = tasks.length := by
  constructor
  · have h0 : (0 : Int) ≤ (k : Int) := Int.natCast_nonneg k
    rw [complete_selected, if_pos h0, Int.toNat_natCast, list_pop, dif_pos h]
    simp [List.eraseIdx_eq_take_drop_succ]
  · have htake : (tasks.take k).length = k := by
      rw [List.length_take]
      exact Nat.min_eq_left (Nat.le_of_lt h)
    rw [List.length_append, htake, List.length_drop]
    omega

/-- Witness for C8: removing row 1 of a three-task list. -/
theorem C8_remove_selected_row_witness :
    complete_selected [sampleA, sampleB, sampleDone] ((1 : Nat) : Int)
        = some ([sampleA, sampleB, sampleDone].take 1
            ++ [sampleA, sampleB, sampleDone].drop (1 + 1)) ∧
      ([sampleA, sampleB, sampleDone].take 1
          ++ [sampleA, sampleB, sampleDone].drop (1 + 1)).length + 1
        = ([sampleA, sampleB, sampleDone] : List Task).length :=
  C8_remove_selected_row [sampleA, sampleB, sampleDone] 1 (by norm_num)

/-- A successful close-scan splits its input at the first `]`. -/
theorem scanToClose_some {l sub : List Char} (h : scanToClose l = some sub) :
    ∃ mid post, l = mid ++ ']' :: post ∧ ']' ∉ mid ∧ sub = mid ++ [']'] := by
  induction l generalizing sub with
  | nil => exact Option.noConfusion h
  | cons c rest ih =>
    rw [scanToClose] at h
    by_cases hc : c = ']'
    · subst hc
      rw [if_pos rfl] at h
      refine ⟨[], rest, rfl, by simp, ?_⟩
      simpa using h.symm
    · rw [if_neg hc] at h
      cases hs : scanToClose rest with
      | none => rw [hs] at h; simp at h
      | some sub' =>
        rw [hs, Option.map_some'] at h
        have hsubeq := Option.some.inj h
        obtain ⟨mid, post, hl, hnm, hsub⟩ := ih hs
        refine ⟨c :: mid, post, by rw [hl]; rfl, ?_, ?_⟩
        · simp only [List.mem_cons, not_or]
          exact ⟨fun he => hc he.symm, hnm⟩
        · rw [← hsubeq, hsub]
          rfl

/-- A successful bracket search splits its input at the first `[` and the
first `]` after it. -/
theorem firstBracketMatch_some {l sub : List Char} (h : firstBracketMatch l = some sub) :
    ∃ pre mid post, l = pre ++ '[' :: mid ++ ']' :: post ∧ '[' ∉ pre ∧ ']' ∉ mid ∧
      sub = '[' :: (mid ++ [']']) := by
  induction l generalizing sub with
  | nil => exact Option.noConfusion h
  | cons c rest ih =>
    rw [firstBracketMatch] at h
    by_cases hc : c = '['
    · subst hc
      rw [if_pos rfl] at h
      cases hs : scanToClose rest with
      | none => rw [hs] at h; simp at h
      | some sub' =>
        rw [hs, Option.map_some'] at h
        have hsubeq := Option.some.inj h
        obtain ⟨mid, post, hl, hnm, hsub⟩ := scanToClose_some hs
        refine ⟨[], mid, post, by rw [hl]; rfl, by simp, hnm, ?_⟩
        rw [← hsubeq, hsub]
    · rw [if_neg hc] at h
      obtain ⟨pre, mid, post, hl, hnp, hnm, hsub⟩ := ih h
      refine ⟨c :: pre, mid, post, by rw [hl]; rfl, ?_, hnm, hsub⟩
      simp only [List.mem_cons, not_or]
      exact ⟨fun he => hc he.symm, hnp⟩

/-- C6 (confirmed): the extraction parser takes the substring from the
first `[` to the first `]` after it and parses it as JSON; a missing
bracket match or a parse failure yields the empty list; the response
`Sure! ["buy milk", "call mom"]` yields exactly `["buy milk", "call mom"]`,
and a bracketless response yields the empty list. -/
theorem C6_extraction_pipeline :
    (∀ r : String, firstBracketMatch r.data = none → extract_from_response r = []) ∧
    (∀ (r : String) (sub : List Char), firstBracketMatch r.data = some sub →
        parseJsonStringArray sub = none → extract_from_response r = []) ∧
    (∀ (r : String) (sub : List Char), firstBracketMatch r.data = some sub →
        ∃ pre mid post, r.data = pre ++ '[' :: mid ++ ']' :: post ∧
          '[' ∉ pre ∧ ']' ∉ mid ∧ sub = '[' :: (mid ++ [']'])) ∧
    extract_from_response "Sure! [\"buy milk\", \"call mom\"]"
      = ["buy milk", "call mom"] ∧
    extract_from_response "I could not find any tasks in that message." = [] := by
  refine ⟨?_, ?_, fun r sub h => firstBracketMatch_some h, by rfl, by rfl⟩
  · intro r h
    simp [extract_from_response, bracket_json_parse, h]
  · intro r sub h hp
    simp [extract_from_response, bracket_json_parse, h, hp]

/-- Witness for C6: a response whose first bracketed substring is not valid
JSON extracts to the empty list. -/
theorem C6_extraction_pipeline_witness :
    extract_from_response "here you go [oops] end" = [] :=
  C6_extraction_pipeline.2.1 "here you go [oops] end" "[oops]".data rfl rfl

/-- C4 (confirmed): for every state of the store file — absent, empty, or
content on which the structured parse fails — `load_tasks` returns the
empty sequence; being a total function of the file state, it cannot raise
(the source catches every exception with a bare `except` and returns `[]`,
lines 49-50, and returns `[]` when the file does not exist, line 51). -/
theorem C4_load_never_fails :
    load_tasks none = [] ∧ load_tasks (some "") = [] ∧
    (∀ s : String, parseTasksFile s = none → load_tasks (some s) = []) := by
  refine ⟨rfl, rfl, ?_⟩
  intro s h
  simp [load_tasks, h]

/-- Witness for C4: a file whose content is not a JSON task list loads as
the empty sequence. -/
theorem C4_load_never_fails_witness :
    load_tasks (some "surprise! not a task list") = [] :=
  C4_load_never_fails.2.2 "surprise! not a task list" rfl

/-! ### Save/load round trip, part 1: JSON string escaping -/

/-- Unicode scalar values avoid the surrogate range and stay below
`0x110000`. -/
theorem char_toNat_valid (c : Char) :
    c.toNat < 0xd800 ∨ (0xdfff < c.toNat ∧ c.toNat < 0x110000) := by
  have h := c.valid
  simpa [Char.toNat, UInt32.isValidChar, Nat.isValidChar] using h

/-- Reading back a serialized hex digit. -/
theorem hexVal_toHexDigit (d : Nat) (h : d < 16) : hexVal (toHexDigit d) = some d := by
  interval_cases d <;> decide

/-- Reading back four serialized hex digits recovers the value below
`0x10000`. -/
theorem parseHex4_hex4 (n : Nat) (h : n < 65536) (rest : List Char) :
    parseHex4 (hex4 n ++ rest) = some (n, rest) := by
  show parseHex4 (toHexDigit (n / 4096 % 16) :: toHexDigit (n / 256 % 16)
    :: toHexDigit (n / 16 % 16) :: toHexDigit (n % 16) :: rest) = some (n, rest)
  have h1 := hexVal_toHexDigit (n / 4096 % 16) (by omega)
  have h2 := hexVal_toHexDigit (n / 256 % 16) (by omega)
  have h3 := hexVal_toHexDigit (n / 16 % 16) (by omega)
  have h4 := hexVal_toHexDigit (n % 16) (by omega)
  have harith : n / 4096 % 16 * 4096 + n / 256 % 16 * 256 + n / 16 % 16 * 16 + n % 16 = n := by
    omega
  simp [parseHex4, h1, h2, h3, h4, harith]

/-- Every character escapes to at least one output character. -/
theorem escape_char_length_pos (c : Char) : 1 ≤ (escape_char c).length := by
  rw [escape_char]
  split_ifs <;> simp [hex4]

/-- Escaping cannot shorten a string. -/
theorem escape_chars_length_ge (l : List Char) : l.length ≤ (escape_chars l).length := by
  induction l with
  | nil => simp [escape_chars]
  | cons c cs ih =>
    rw [escape_chars, List.length_append, List.length_cons]
    have := escape_char_length_pos c
    omega

/-- Parser step for a two-character shorthand escape. -/
theorem parseJStrBody_shorthand (fuel : Nat) (e ec : Char) (T s rem : List Char)
    (he : (if e = '"' then some '"'
           else if e = '\\' then some '\\'
           else if e = '/' then some '/'
           else if e = 'b' then some (Char.ofNat 8)
           else if e = 'f' then some (Char.ofNat 12)
           else if e = 'n' then some '\n'
           else if e = 'r' then some '\r'
           else if e = 't' then some '\t'
           else none) = some ec)
    (hne : ¬ e = 'u')
    (hres : parseJStrBody fuel T = some (s, rem)) :
    parseJStrBody (fuel + 1) ('\\' :: e :: T) = some (ec :: s, rem) := by
  simp [parseJStrBody, hne, he, hres]

/-- Parser step for a literal printable character. -/
theorem parseJStrBody_literal (fuel : Nat) (c : Char) (T s rem : List Char)
    (h1 : ¬ c = '"') (h2 : ¬ c = '\\') (h3 : ¬ c.toNat < 0x20)
    (hres : parseJStrBody fuel T = some (s, rem)) :
    parseJStrBody (fuel + 1) (c :: T) = some (c :: s, rem) := by
  simp [parseJStrBody, h1, h2, h3, hres]

/-- Parser step for a `\uXXXX` escape outside the surrogate range. -/
theorem parseJStrBody_unicode (fuel : Nat) (n : Nat) (T s rem : List Char)
    (hlt : n < 0x10000) (hno : ¬ (0xd800 ≤ n ∧ n ≤ 0xdfff))
    (hres : parseJStrBody fuel T = some (s, rem)) :
    parseJStrBody (fuel + 1) ('\\' :: 'u' :: (hex4 n ++ T))
      = some (Char.ofNat n :: s, rem) := by
  have hp := parseHex4_hex4 n hlt T
  have hno1 : ¬ (0xd800 ≤ n ∧ n ≤ 0xdbff) := by omega
  have hno2 : ¬ (0xdc00 ≤ n ∧ n ≤ 0xdfff) := by omega
  simp [parseJStrBody, hp, hno1, hno2, hres]

/-- Parser step for a surrogate-pair escape of the scalar `0x10000 + m`. -/
theorem parseJStrBody_surrogate (fuel : Nat) (m : Nat) (T s rem : List Char)
    (hm : m < 0x100000)
    (hres : parseJStrBody fuel T = some (s, rem)) :
    parseJStrBody (fuel + 1)
      ('\\' :: 'u' :: (hex4 (0xd800 + m / 0x400)
        ++ ('\\' :: 'u' :: (hex4 (0xdc00 + m % 0x400) ++ T))))
      = some (Char.ofNat (0x10000 + m) :: s, rem) := by
  have h1 := parseHex4_hex4 (0xd800 + m / 0x400) (by omega)
    ('\\' :: 'u' :: (hex4 (0xdc00 + m % 0x400) ++ T))
  have h2 := parseHex4_hex4 (0xdc00 + m % 0x400) (by omega) T
  have hg1 : 0xd800 ≤ 0xd800 + m / 0x400 ∧ 0xd800 + m / 0x400 ≤ 0xdbff := by omega
  have hg2 : 0xdc00 ≤ 0xdc00 + m % 0x400 ∧ 0xdc00 + m % 0x400 ≤ 0xdfff := by omega
  simp [parseJStrBody, h1, h2, hg1, hg2, hres]
  congr 1
  omega

/-- Parsing the escape of one character consumes it and continues. -/
theorem parseJStrBody_escape_char (c : Char) (fuel : Nat) (T s rem : List Char)
    (hres : parseJStrBody fuel T = some (s, rem)) :
    parseJStrBody (fuel + 1) (escape_char c ++ T) = some (c :: s, rem) := by
  rw [escape_char]
  by_cases h1 : c = '"'
  · subst h1
    rw [if_pos rfl]
    exact parseJStrBody_shorthand fuel '"' '"' T s rem (by decide) (by decide) hres
  · rw [if_neg h1]
    by_cases h2 : c = '\\'
    · subst h2
      rw [if_pos rfl]
      exact parseJStrBody_shorthand fuel '\\' '\\' T s rem (by decide) (by decide) hres
    · rw [if_neg h2]
      by_cases h3 : c = '\n'
      · subst h3
        rw [if_pos rfl]
        exact parseJStrBody_shorthand fuel 'n' '\n' T s rem (by decide) (by decide) hres
      · rw [if_neg h3]
        by_cases h4 : c = '\r'
        · subst h4
          rw [if_pos rfl]
          exact parseJStrBody_shorthand fuel 'r' '\r' T s rem (by decide) (by decide) hres
        · rw [if_neg h4]
          by_cases h5 : c = '\t'
          · subst h5
            rw [if_pos rfl]
            exact parseJStrBody_shorthand fuel 't' '\t' T s rem (by decide) (by decide) hres
          · rw [if_neg h5]
            by_cases h6 : c.toNat = 8
            · rw [if_pos h6]
              have hc : c = Char.ofNat 8 := by
                rw [← h6, Char.ofNat_toNat]
              rw [hc]
              exact parseJStrBody_shorthand fuel 'b' (Char.ofNat 8) T s rem
                (by decide) (by decide) hres
            · rw [if_neg h6]
              by_cases h7 : c.toNat = 12
              · rw [if_pos h7]
                have hc : c = Char.ofNat 12 := by
                  rw [← h7, Char.ofNat_toNat]
                rw [hc]
                exact parseJStrBody_shorthand fuel 'f' (Char.ofNat 12) T s rem
                  (by decide) (by decide) hres
              · rw [if_neg h7]
                by_cases h8 : 0x20 ≤ c.toNat ∧ c.toNat ≤ 0x7e
                · rw [if_pos h8]
                  have hq : ¬ c = '"' := h1
                  have hb : ¬ c = '\\' := h2
                  have hctl : ¬ c.toNat < 0x20 := by omega
                  simpa using parseJStrBody_literal fuel c T s rem hq hb hctl hres
                · rw [if_neg h8]
                  have hval := char_toNat_valid c
                  by_cases h9 : c.toNat < 0x10000
                  · rw [if_pos h9]
                    have hno : ¬ (0xd800 ≤ c.toNat ∧ c.toNat ≤ 0xdfff) := by omega
                    have := parseJStrBody_unicode fuel c.toNat T s rem h9 hno hres
                    rw [Char.ofNat_toNat] at this
                    simpa [List.cons_append] using this
                  · rw [if_neg h9]
                    have hm : c.toNat - 0x10000 < 0x100000 := by omega
                    have := parseJStrBody_surrogate fuel (c.toNat - 0x10000) T s rem hm hres
                    have hcn : 0x10000 + (c.toNat - 0x10000) = c.toNat := by omega
                    rw [hcn, Char.ofNat_toNat] at this
                    simpa [List.cons_append, List.append_assoc] using this

/-- Parsing the escaped body of a string, followed by the closing quote,
recovers the original characters. -/
theorem parseJStrBody_escape_chars (l : List Char) : ∀ (fuel : Nat) (rest : List Char),
    l.length + 1 ≤ fuel →
    parseJStrBody fuel (escape_chars l ++ '"' :: rest) = some (l, rest) := by
  induction l with
  | nil =>
    intro fuel rest hf
    obtain ⟨f, rfl⟩ : ∃ f, fuel = f + 1 := ⟨fuel - 1, by omega⟩
    rfl
  | cons c cs ih =>
    intro fuel rest hf
    simp only [List.length_cons] at hf
    obtain ⟨f, rfl⟩ : ∃ f, fuel = f + 1 := ⟨fuel - 1, by omega⟩
    rw [escape_chars, List.append_assoc]
    exact parseJStrBody_escape_char c f _ cs rest (ih f rest (by omega))

/-- Reading back a serialized JSON string (with one leading space, as the
store format always puts one after the colon) recovers it exactly. -/
theorem parseJStr_dump (v : String) (X : List Char) :
    parseJStr (' ' :: (dump_jstr v ++ X)) = some (v, X) := by
  have h0 : skipWs (' ' :: (dump_jstr v ++ X))
      = '"' :: ((escape_chars v.data ++ ['"']) ++ X) := rfl
  have hbody := parseJStrBody_escape_chars v.data
    ((escape_chars v.data ++ '"' :: X).length + 1) X
    (by
      have h := escape_chars_length_ge v.data
      rw [List.length_append, List.length_cons]
      omega)
  simp only [parseJStr, h0, List.append_assoc, List.singleton_append]
  rw [hbody]

/-! ### Save/load round trip, part 2: integers and booleans -/

/-- A serialized decimal digit compares inside `'0'..'9'`. -/
theorem digit_char_le (d : Nat) (h : d < 10) :
    '0' ≤ Char.ofNat (48 + d) ∧ Char.ofNat (48 + d) ≤ '9' := by
  interval_cases d <;> exact ⟨by decide, by decide⟩

/-- Reading back a serialized decimal digit. -/
theorem digit_char_val (d : Nat) (h : d < 10) :
    (Char.ofNat (48 + d)).toNat - 48 = d := by
  interval_cases d <;> decide

/-- A nonzero serialized digit is not `'0'`. -/
theorem digit_char_ne_zero (d : Nat) (h1 : 1 ≤ d) (h2 : d < 10) :
    ¬ Char.ofNat (48 + d) = '0' := by
  interval_cases d <;> decide

/-- A nonzero serialized digit compares inside `'1'..'9'`. -/
theorem digit_char_ge_one (d : Nat) (h1 : 1 ≤ d) (h2 : d < 10) :
    '1' ≤ Char.ofNat (48 + d) ∧ Char.ofNat (48 + d) ≤ '9' := by
  interval_cases d <;> exact ⟨by decide, by decide⟩

/-- A serialized digit is not a minus sign. -/
theorem digit_char_ne_minus (d : Nat) (h : d < 10) :
    ¬ Char.ofNat (48 + d) = '-' := by
  interval_cases d <;> decide

/-- A serialized digit is not JSON whitespace. -/
theorem digit_char_not_ws (d : Nat) (h : d < 10) :
    isJsonWs (Char.ofNat (48 + d)) = false := by
  interval_cases d <;> decide

/-- Leading whitespace is dropped one character at a time. -/
theorem skipWs_cons_true {c : Char} (h : isJsonWs c = true) (l : List Char) :
    skipWs (c :: l) = skipWs l := by
  simp [skipWs, h]

/-- A non-whitespace head stops the whitespace scan. -/
theorem skipWs_cons_false {c : Char} (h : isJsonWs c = false) (l : List Char) :
    skipWs (c :: l) = c :: l := by
  simp [skipWs, h]

/-- The digit scan consumes exactly the serialized digits when the rest
does not begin with a digit. -/
theorem parseDigitsAcc_map (ds : List Nat) : ∀ (acc : Nat) (rest : List Char),
    (∀ d ∈ ds, d < 10) →
    (∀ c, rest.head? = some c → ¬ ('0' ≤ c ∧ c ≤ '9')) →
    parseDigitsAcc acc (ds.map (fun d => Char.ofNat (48 + d)) ++ rest)
      = (ds.foldl (fun a d => a * 10 + d) acc, rest) := by
  induction ds with
  | nil =>
    intro acc rest hds hrest
    rw [List.map_nil, List.nil_append, List.foldl_nil]
    cases rest with
    | nil => rfl
    | cons c rs =>
      simp only [parseDigitsAcc]
      rw [if_neg (hrest c rfl)]
  | cons d ds ih =>
    intro acc rest hds hrest
    have hd : d < 10 := hds d (List.mem_cons_self _ _)
    rw [List.map_cons, List.cons_append, List.foldl_cons]
    simp only [parseDigitsAcc]
    rw [if_pos (digit_char_le d hd), digit_char_val d hd,
      ih (acc * 10 + d) rest (fun x hx => hds x (List.mem_cons_of_mem _ hx)) hrest]

/-- The digit fold computes the base-10 value. -/
theorem foldl_digits_eq (ds : List Nat) : ∀ acc : Nat,
    ds.foldl (fun a d => a * 10 + d) acc
      = acc * 10 ^ ds.length + Nat.ofDigits 10 ds.reverse := by
  induction ds with
  | nil => intro acc; simp [Nat.ofDigits]
  | cons d ds ih =>
    intro acc
    rw [List.foldl_cons, ih (acc * 10 + d), List.reverse_cons, Nat.ofDigits_append,
      Nat.ofDigits_singleton, List.length_reverse, List.length_cons]
    ring

/-- Reading back a serialized natural number when the rest does not begin
with a digit. -/
theorem parseUNum_repr (n : Nat) (rest : List Char)
    (hrest : ∀ c, rest.head? = some c → ¬ ('0' ≤ c ∧ c ≤ '9')) :
    parseUNum (nat_repr_chars n ++ rest) = some (n, rest) := by
  by_cases h0 : n = 0
  · subst h0
    rfl
  · rw [nat_repr_chars, if_neg h0]
    obtain ⟨d, ds, hds⟩ : ∃ d ds, (Nat.digits 10 n).reverse = d :: ds := by
      cases hrev : (Nat.digits 10 n).reverse with
      | nil =>
        have : Nat.digits 10 n = [] := by
          have := congrArg List.reverse hrev
          simpa using this
        exact absurd this (Nat.digits_ne_nil_iff_ne_zero.mpr h0)
      | cons d ds => exact ⟨d, ds, rfl⟩
    have hne : Nat.digits 10 n ≠ [] := Nat.digits_ne_nil_iff_ne_zero.mpr h0
    have hmem : ∀ x ∈ d :: ds, x < 10 := by
      intro x hx
      have hx' : x ∈ Nat.digits 10 n := by
        rw [← List.mem_reverse, hds]
        exact hx
      exact Nat.digits_lt_base (by norm_num) hx'
    have hd9 : d < 10 := hmem d (List.mem_cons_self _ _)
    have hd0 : d ≠ 0 := by
      have h1 : (Nat.digits 10 n).reverse.head? = some d := by rw [hds]; rfl
      rw [List.head?_reverse, List.getLast?_eq_getLast _ hne] at h1
      have h2 := Option.some.inj h1
      have h3 := Nat.getLast_digit_ne_zero 10 h0
      exact fun hdz => h3 (h2.trans hdz)
    have hd1 : 1 ≤ d := Nat.one_le_iff_ne_zero.mpr hd0
    rw [hds, List.map_cons, List.cons_append]
    simp only [parseUNum]
    rw [if_neg (digit_char_ne_zero d hd1 hd9), if_pos (digit_char_ge_one d hd1 hd9),
      digit_char_val d hd9,
      parseDigitsAcc_map ds d rest (fun x hx => hmem x (List.mem_cons_of_mem _ hx)) hrest,
      foldl_digits_eq]
    have hdig : Nat.digits 10 n = ds.reverse ++ [d] := by
      have := congrArg List.reverse hds
      rw [List.reverse_reverse, List.reverse_cons] at this
      exact this
    have hval : d * 10 ^ ds.length + Nat.ofDigits 10 ds.reverse = n := by
      conv_rhs => rw [← Nat.ofDigits_digits 10 n, hdig]
      rw [Nat.ofDigits_append, Nat.ofDigits_singleton, List.length_reverse]
      ring
    rw [hval]

/-- Reading back a serialized integer (with one leading space, as the
store format always puts one after the colon) when the rest does not begin
with a digit. -/
theorem parseJInt_dump (n : Int) (rest : List Char)
    (hrest : ∀ c, rest.head? = some c → ¬ ('0' ≤ c ∧ c ≤ '9')) :
    parseJInt (' ' :: (dump_int n ++ rest)) = some (n, rest) := by
  by_cases hneg : n < 0
  · have hd : dump_int n = '-' :: nat_repr_chars n.natAbs := by
      rw [dump_int, if_pos hneg]
    rw [hd]
    have hs1 : skipWs (' ' :: '-' :: (nat_repr_chars n.natAbs ++ rest))
        = '-' :: (nat_repr_chars n.natAbs ++ rest) := rfl
    have hp := parseUNum_repr n.natAbs rest hrest
    have hn : -((n.natAbs : Nat) : Int) = n := by
      rw [Int.natCast_natAbs, abs_of_neg hneg]
      ring
    simp only [parseJInt, List.cons_append]
    rw [hs1]
    dsimp only
    rw [if_pos rfl, hp]
    simp only [Option.map_some']
    rw [hn]
  · have hd : dump_int n = nat_repr_chars n.toNat := by
      rw [dump_int, if_neg hneg]
    rw [hd]
    by_cases h0 : n.toNat = 0
    · have hn0 : n = 0 := by omega
      subst hn0
      rfl
    · obtain ⟨d, ds, hds⟩ : ∃ d ds, (Nat.digits 10 n.toNat).reverse = d :: ds := by
        cases hrev : (Nat.digits 10 n.toNat).reverse with
        | nil =>
          have : Nat.digits 10 n.toNat = [] := by
            have := congrArg List.reverse hrev
            simpa using this
          exact absurd this (Nat.digits_ne_nil_iff_ne_zero.mpr h0)
        | cons d ds => exact ⟨d, ds, rfl⟩
      have hd9 : d < 10 := by
        have hx' : d ∈ Nat.digits 10 n.toNat := by
          rw [← List.mem_reverse, hds]
          exact List.mem_cons_self _ _
        exact Nat.digits_lt_base (by norm_num) hx'
      have hrv : nat_repr_chars n.toNat
          = Char.ofNat (48 + d) :: List.map (fun x => Char.ofNat (48 + x)) ds := by
        rw [nat_repr_chars, if_neg h0, hds, List.map_cons]
      have hs1 : skipWs (' ' :: (nat_repr_chars n.toNat ++ rest))
          = Char.ofNat (48 + d) :: (List.map (fun x => Char.ofNat (48 + x)) ds ++ rest) := by
        rw [hrv, List.cons_append]
        show skipWs _ = _
        rw [skipWs_cons_true (by decide), skipWs_cons_false (digit_char_not_ws d hd9)]
      have hp : parseUNum (Char.ofNat (48 + d)
            :: (List.map (fun x => Char.ofNat (48 + x)) ds ++ rest))
          = some (n.toNat, rest) := by
        rw [show Char.ofNat (48 + d) :: (List.map (fun x => Char.ofNat (48 + x)) ds ++ rest)
            = nat_repr_chars n.toNat ++ rest by rw [hrv, List.cons_append]]
        exact parseUNum_repr n.toNat rest hrest
      have hne : ¬ Char.ofNat (48 + d) = '-' := digit_char_ne_minus d hd9
      have htn : ((n.toNat : Nat) : Int) = n := Int.toNat_of_nonneg (by omega)
      simp only [parseJInt]
      rw [hs1]
      dsimp only
      rw [if_neg hne, hp]
      simp only [Option.map_some']
      rw [htn]

/-- Reading back a serialized boolean (with one leading space). -/
theorem parseJBool_dump (b : Bool) (rest : List Char) :
    parseJBool (' ' :: (dump_bool b ++ rest)) = some (b, rest) := by
  cases b <;> rfl

/-! ### Save/load round trip, part 3: records and the stored list -/

/-- Opening brace of an object, reached through whitespace. -/
theorem expectChar_brace (l X : List Char) (h : skipWs l = '{' :: X) :
    expectChar '{' l = some X := by
  simp only [expectChar]
  rw [h]
  dsimp only
  rw [if_pos rfl]

/-- The first key of a serialized record. -/
theorem parseKey_id (Y : List Char) :
    parseKey "id" (['\n', ' ', ' ', ' ', ' ', '\"', 'i', 'd', '\"', ':', ' '] ++ Y) = some (' ' :: Y) := rfl

/-- The `text` field of a serialized record. -/
theorem parse_field_text (v : String) (Y : List Char) :
    parseFieldAfterComma "text" parseJStr
        ([',', '\n', ' ', ' ', ' ', ' ', '\"', 't', 'e', 'x', 't', '\"', ':', ' '] ++ (dump_jstr v ++ Y)) = some (v, Y) := by
  have h1 : expectChar ',' ([',', '\n', ' ', ' ', ' ', ' ', '\"', 't', 'e', 'x', 't', '\"', ':', ' '] ++ (dump_jstr v ++ Y))
      = some (['\n', ' ', ' ', ' ', ' ', '\"', 't', 'e', 'x', 't', '\"', ':', ' '] ++ (dump_jstr v ++ Y)) := rfl
  have h2 : parseKey "text" (['\n', ' ', ' ', ' ', ' ', '\"', 't', 'e', 'x', 't', '\"', ':', ' '] ++ (dump_jstr v ++ Y))
      = some (' ' :: (dump_jstr v ++ Y)) := rfl
  simp only [parseFieldAfterComma]
  rw [h1]
  dsimp only
  rw [h2]
  dsimp only
  rw [parseJStr_dump]

/-- The `completed` field of a serialized record. -/
theorem parse_field_completed (b : Bool) (Y : List Char) :
    parseFieldAfterComma "completed" parseJBool
        ([',', '\n', ' ', ' ', ' ', ' ', '\"', 'c', 'o', 'm', 'p', 'l', 'e', 't', 'e', 'd', '\"', ':', ' '] ++ (dump_bool b ++ Y)) = some (b, Y) := by
  have h1 : expectChar ',' ([',', '\n', ' ', ' ', ' ', ' ', '\"', 'c', 'o', 'm', 'p', 'l', 'e', 't', 'e', 'd', '\"', ':', ' '] ++ (dump_bool b ++ Y))
      = some (['\n', ' ', ' ', ' ', ' ', '\"', 'c', 'o', 'm', 'p', 'l', 'e', 't', 'e', 'd', '\"', ':', ' '] ++ (dump_bool b ++ Y)) := rfl
  have h2 : parseKey "completed" (['\n', ' ', ' ', ' ', ' ', '\"', 'c', 'o', 'm', 'p', 'l', 'e', 't', 'e', 'd', '\"', ':', ' '] ++ (dump_bool b ++ Y))
      = some (' ' :: (dump_bool b ++ Y)) := rfl
  simp only [parseFieldAfterComma]
  rw [h1]
  dsimp only
  rw [h2]
  dsimp only
  rw [parseJBool_dump]

/-- The `timestamp` field of a serialized record, followed by the next
segment, which starts with a comma (not a digit). -/
theorem parse_field_timestamp (n : Int) (Y : List Char) :
    parseFieldAfterComma "timestamp" parseJInt
        ([',', '\n', ' ', ' ', ' ', ' ', '\"', 't', 'i', 'm', 'e', 's', 't', 'a', 'm', 'p', '\"', ':', ' '] ++ (dump_int n ++ ([',', '\n', ' ', ' ', ' ', ' ', '\"', 'p', 'r', 'i', 'o', 'r', 'i', 't', 'y', '_', 's', 'c', 'o', 'r', 'e', '\"', ':', ' '] ++ Y)))
      = some (n, [',', '\n', ' ', ' ', ' ', ' ', '\"', 'p', 'r', 'i', 'o', 'r', 'i', 't', 'y', '_', 's', 'c', 'o', 'r', 'e', '\"', ':', ' '] ++ Y) := by
  have h1 : expectChar ',' ([',', '\n', ' ', ' ', ' ', ' ', '\"', 't', 'i', 'm', 'e', 's', 't', 'a', 'm', 'p', '\"', ':', ' '] ++ (dump_int n ++ ([',', '\n', ' ', ' ', ' ', ' ', '\"', 'p', 'r', 'i', 'o', 'r', 'i', 't', 'y', '_', 's', 'c', 'o', 'r', 'e', '\"', ':', ' '] ++ Y)))
      = some (['\n', ' ', ' ', ' ', ' ', '\"', 't', 'i', 'm', 'e', 's', 't', 'a', 'm', 'p', '\"', ':', ' '] ++ (dump_int n ++ ([',', '\n', ' ', ' ', ' ', ' ', '\"', 'p', 'r', 'i', 'o', 'r', 'i', 't', 'y', '_', 's', 'c', 'o', 'r', 'e', '\"', ':', ' '] ++ Y))) := rfl
  have h2 : parseKey "timestamp" (['\n', ' ', ' ', ' ', ' ', '\"', 't', 'i', 'm', 'e', 's', 't', 'a', 'm', 'p', '\"', ':', ' '] ++ (dump_int n ++ ([',', '\n', ' ', ' ', ' ', ' ', '\"', 'p', 'r', 'i', 'o', 'r', 'i', 't', 'y', '_', 's', 'c', 'o', 'r', 'e', '\"', ':', ' '] ++ Y)))
      = some (' ' :: (dump_int n ++ ([',', '\n', ' ', ' ', ' ', ' ', '\"', 'p', 'r', 'i', 'o', 'r', 'i', 't', 'y', '_', 's', 'c', 'o', 'r', 'e', '\"', ':', ' '] ++ Y))) := rfl
  have h3 := parseJInt_dump n ([',', '\n', ' ', ' ', ' ', ' ', '\"', 'p', 'r', 'i', 'o', 'r', 'i', 't', 'y', '_', 's', 'c', 'o', 'r', 'e', '\"', ':', ' '] ++ Y) (by
    intro c hc
    have hc2 := Option.some.inj hc
    rw [← hc2]
    decide)
  simp only [parseFieldAfterComma]
  rw [h1]
  dsimp only
  rw [h2]
  dsimp only
  rw [h3]

/-- The `priority_score` field of a serialized record, followed by the next
segment, which starts with a comma (not a digit). -/
theorem parse_field_priority (n : Int) (Y : List Char) :
    parseFieldAfterComma "priority_score" parseJInt
        ([',', '\n', ' ', ' ', ' ', ' ', '\"', 'p', 'r', 'i', 'o', 'r', 'i', 't', 'y', '_', 's', 'c', 'o', 'r', 'e', '\"', ':', ' '] ++ (dump_int n ++ ([',', '\n', ' ', ' ', ' ', ' ', '\"', 's', 'o', 'u', 'r', 'c', 'e', '\"', ':', ' '] ++ Y)))
      = some (n, [',', '\n', ' ', ' ', ' ', ' ', '\"', 's', 'o', 'u', 'r', 'c', 'e', '\"', ':', ' '] ++ Y) := by
  have h1 : expectChar ',' ([',', '\n', ' ', ' ', ' ', ' ', '\"', 'p', 'r', 'i', 'o', 'r', 'i', 't', 'y', '_', 's', 'c', 'o', 'r', 'e', '\"', ':', ' '] ++ (dump_int n ++ ([',', '\n', ' ', ' ', ' ', ' ', '\"', 's', 'o', 'u', 'r', 'c', 'e', '\"', ':', ' '] ++ Y)))
      = some (['\n', ' ', ' ', ' ', ' ', '\"', 'p', 'r', 'i', 'o', 'r', 'i', 't', 'y', '_', 's', 'c', 'o', 'r', 'e', '\"', ':', ' '] ++ (dump_int n ++ ([',', '\n', ' ', ' ', ' ', ' ', '\"', 's', 'o', 'u', 'r', 'c', 'e', '\"', ':', ' '] ++ Y))) := rfl
  have h2 : parseKey "priority_score" (['\n', ' ', ' ', ' ', ' ', '\"', 'p', 'r', 'i', 'o', 'r', 'i', 't', 'y', '_', 's', 'c', 'o', 'r', 'e', '\"', ':', ' '] ++ (dump_int n ++ ([',', '\n', ' ', ' ', ' ', ' ', '\"', 's', 'o', 'u', 'r', 'c', 'e', '\"', ':', ' '] ++ Y)))
      = some (' ' :: (dump_int n ++ ([',', '\n', ' ', ' ', ' ', ' ', '\"', 's', 'o', 'u', 'r', 'c', 'e', '\"', ':', ' '] ++ Y))) := rfl
  have h3 := parseJInt_dump n ([',', '\n', ' ', ' ', ' ', ' ', '\"', 's', 'o', 'u', 'r', 'c', 'e', '\"', ':', ' '] ++ Y) (by
    intro c hc
    have hc2 := Option.some.inj hc
    rw [← hc2]
    decide)
  simp only [parseFieldAfterComma]
  rw [h1]
  dsimp only
  rw [h2]
  dsimp only
  rw [h3]

/-- The `source` field of a serialized record. -/
theorem parse_field_source (v : String) (Y : List Char) :
    parseFieldAfterComma "source" parseJStr
        ([',', '\n', ' ', ' ', ' ', ' ', '\"', 's', 'o', 'u', 'r', 'c', 'e', '\"', ':', ' '] ++ (dump_jstr v ++ Y)) = some (v, Y) := by
  have h1 : expectChar ',' ([',', '\n', ' ', ' ', ' ', ' ', '\"', 's', 'o', 'u', 'r', 'c', 'e', '\"', ':', ' '] ++ (dump_jstr v ++ Y))
      = some (['\n', ' ', ' ', ' ', ' ', '\"', 's', 'o', 'u', 'r', 'c', 'e', '\"', ':', ' '] ++ (dump_jstr v ++ Y)) := rfl
  have h2 : parseKey "source" (['\n', ' ', ' ', ' ', ' ', '\"', 's', 'o', 'u', 'r', 'c', 'e', '\"', ':', ' '] ++ (dump_jstr v ++ Y))
      = some (' ' :: (dump_jstr v ++ Y)) := rfl
  simp only [parseFieldAfterComma]
  rw [h1]
  dsimp only
  rw [h2]
  dsimp only
  rw [parseJStr_dump]

/-- Closing brace of a serialized record. -/
theorem expectChar_close (Y : List Char) :
    expectChar '}' (['\n', ' ', ' ', '}'] ++ Y) = some Y := rfl

/-- Reading back one serialized record (reached through whitespace)
recovers the task and leaves the rest. -/
theorem parseTaskObj_dump (t : Task) (l Y : List Char)
    (h : skipWs l = '{' :: (dump_obj_tail t ++ Y)) :
    parseTaskObj l = some (t, Y) := by
  have h0 : expectChar '{' l
      = some (['\n', ' ', ' ', ' ', ' ', '\"', 'i', 'd', '\"', ':', ' '] ++ (dump_jstr t.id
        ++ ([',', '\n', ' ', ' ', ' ', ' ', '\"', 't', 'e', 'x', 't', '\"', ':', ' '] ++ (dump_jstr t.text
        ++ ([',', '\n', ' ', ' ', ' ', ' ', '\"', 'c', 'o', 'm', 'p', 'l', 'e', 't', 'e', 'd', '\"', ':', ' '] ++ (dump_bool t.completed
        ++ ([',', '\n', ' ', ' ', ' ', ' ', '\"', 't', 'i', 'm', 'e', 's', 't', 'a', 'm', 'p', '\"', ':', ' '] ++ (dump_int t.timestamp
        ++ ([',', '\n', ' ', ' ', ' ', ' ', '\"', 'p', 'r', 'i', 'o', 'r', 'i', 't', 'y', '_', 's', 'c', 'o', 'r', 'e', '\"', ':', ' '] ++ (dump_int t.priority_score
        ++ ([',', '\n', ' ', ' ', ' ', ' ', '\"', 's', 'o', 'u', 'r', 'c', 'e', '\"', ':', ' '] ++ (dump_jstr t.source
        ++ (['\n', ' ', ' ', '}'] ++ Y))))))))))))) := by
    rw [expectChar_brace l (dump_obj_tail t ++ Y) h, dump_obj_tail]
    simp only [List.append_assoc]
  simp only [parseTaskObj]
  rw [h0]
  dsimp only
  rw [parseKey_id]
  dsimp only
  rw [parseJStr_dump]
  dsimp only
  rw [parse_field_text]
  dsimp only
  rw [parse_field_completed]
  dsimp only
  rw [parse_field_timestamp]
  dsimp only
  rw [parse_field_priority]
  dsimp only
  rw [parse_field_source]
  dsimp only
  rw [expectChar_close]

/-- Each serialized record contributes at least one character to the
separated tail. -/
theorem dump_objs_sep_length_ge (ts : List Task) :
    ts.length ≤ (dump_objs_sep ts).length := by
  induction ts with
  | nil => simp [dump_objs_sep]
  | cons t rest ih =>
    rw [dump_objs_sep, List.length_append, List.length_append,
      show ((",\n".data : List Char)).length = 2 from rfl, List.length_cons]
    omega

/-- Reading back the serialized records of a nonempty store, up to and
including the closing bracket. -/
theorem parseTaskObjs_dump (ts : List Task) : ∀ (t : Task) (fuel : Nat) (l W : List Char),
    ts.length + 1 ≤ fuel →
    skipWs l = '{' :: (dump_obj_tail t ++ (dump_objs_sep ts ++ (['\n', ']'] ++ W))) →
    parseTaskObjs fuel l = some (t :: ts, W) := by
  induction ts with
  | nil =>
    intro t fuel l W hf h
    obtain ⟨f, rfl⟩ : ∃ f, fuel = f + 1 := ⟨fuel - 1, by omega⟩
    rw [dump_objs_sep, List.nil_append] at h
    have hobj := parseTaskObj_dump t l (['\n', ']'] ++ W) h
    have hsw : skipWs (['\n', ']'] ++ W) = ']' :: W := rfl
    simp only [parseTaskObjs]
    rw [hobj]
    simp only [Option.bind_eq_bind, Option.some_bind]
    rw [hsw]
    simp only [Option.pure_def]
  | cons t2 ts2 ih =>
    intro t fuel l W hf h
    obtain ⟨f, rfl⟩ : ∃ f, fuel = f + 1 := ⟨fuel - 1, by omega⟩
    simp only [dump_objs_sep, List.append_assoc] at h
    have hobj := parseTaskObj_dump t l
      ([',', '\n'] ++ (dump_task_obj t2 ++ (dump_objs_sep ts2 ++ (['\n', ']'] ++ W)))) h
    have hsw : skipWs ([',', '\n'] ++ (dump_task_obj t2
          ++ (dump_objs_sep ts2 ++ (['\n', ']'] ++ W))))
        = ',' :: ('\n' :: (dump_task_obj t2 ++ (dump_objs_sep ts2 ++ (['\n', ']'] ++ W)))) := rfl
    have hskip2 : skipWs ('\n' :: (dump_task_obj t2
          ++ (dump_objs_sep ts2 ++ (['\n', ']'] ++ W))))
        = '{' :: (dump_obj_tail t2 ++ (dump_objs_sep ts2 ++ (['\n', ']'] ++ W))) := by
      rw [dump_task_obj, List.append_assoc]
      rfl
    have hrec := ih t2 f ('\n' :: (dump_task_obj t2
      ++ (dump_objs_sep ts2 ++ (['\n', ']'] ++ W)))) W
      (by simp only [List.length_cons] at hf; omega) hskip2
    simp only [parseTaskObjs]
    rw [hobj]
    simp only [Option.bind_eq_bind, Option.some_bind]
    rw [hsw]
    simp only [Option.bind_eq_bind, Option.some_bind, Option.pure_def]
    rw [hrec]
    simp only [Option.bind_eq_bind, Option.some_bind, Option.pure_def]

/-- Reading back a serialized store recovers the records exactly. -/
theorem parseTasksFile_dump (ts : List Task) : parseTasksFile (dumpTasks ts) = some ts := by
  cases ts with
  | nil => rfl
  | cons t ts2 =>
    have h1 : expectChar '[' (dumpTasks (t :: ts2)).data
        = some ('\n' :: (dump_objs (t :: ts2) ++ ['\n', ']'])) := rfl
    have h2 : skipWs ('\n' :: (dump_objs (t :: ts2) ++ ['\n', ']']))
        = '{' :: (dump_obj_tail t ++ (dump_objs_sep ts2 ++ (['\n', ']'] ++ []))) := by
      rw [dump_objs, dump_task_obj]
      simp only [List.append_assoc, List.append_nil]
      rfl
    have hfuel : ts2.length + 1
        ≤ ('{' :: (dump_obj_tail t ++ (dump_objs_sep ts2
            ++ (['\n', ']'] ++ [])))).length + 1 := by
      have := dump_objs_sep_length_ge ts2
      simp only [List.length_cons, List.length_append]
      omega
    have hrec := parseTaskObjs_dump ts2 t
      (('{' :: (dump_obj_tail t ++ (dump_objs_sep ts2 ++ (['\n', ']'] ++ [])))).length + 1)
      ('{' :: (dump_obj_tail t ++ (dump_objs_sep ts2 ++ (['\n', ']'] ++ []))))
      [] hfuel (by rw [skipWs_cons_false (by decide)])
    unfold parseTasksFile
    rw [h1]
    dsimp only
    rw [h2]
    dsimp only
    rw [if_neg (show ¬ ('{' : Char) = ']' by decide), hrec]
    rfl

/-- C7 (confirmed): saving any task sequence to the store file and loading
it back yields a sequence of records identical field for field to the one
saved. -/
theorem C7_save_load_roundtrip (tasks : List Task) :
    load_tasks (save_tasks tasks) = tasks := by
  rw [save_tasks, load_tasks, parseTasksFile_dump]
  rfl

end TaskTracker
